import Mathlib

/-!
Shallow embedding of `l4d2_server_scanner.py`, the acquisition-merge-filter-
probe-score-rank pipeline of the steam-connect-redirect repository, together
with theorems settling the frozen claims about it.

Modelling conventions:
* Python scalar values that can appear in a raw listing dictionary are
  modelled by `PyVal` (`None`, booleans, integers, strings).  A dictionary
  field that may be absent is an `Option PyVal`; `dict.get(k, d)` is
  `Option.getD`.
* Python `float` arithmetic is modelled over `ℚ`.  Every quantity the
  pipeline computes (ping normalisation, scores, round-trip times) is a
  small-denominator rational, and the claims under study are about the
  algorithm, not about binary rounding error.
* Code that can raise returns `Except String α`; the string is a stand-in
  for the Python exception type.  Code whose exceptions are caught and
  absorbed (`parse_map`, `icmp_ping_ip`) is total, like the Python function.
* Network and subprocess effects are inputs: the multi-path fetch is given
  the list of per-path result batches, and the ICMP prober is given an
  oracle mapping a host to the observed outcome of the external `ping`.
-/

/-- Python scalar values that occur in raw server-listing dictionaries. -/
inductive PyVal where
  | vNone : PyVal
  | vBool : Bool → PyVal
  | vInt : Int → PyVal
  | vStr : String → PyVal
deriving DecidableEq

/-- Python truthiness (`bool(x)`): `None`, `False`, `0` and `""` are falsy. -/
def truthy : PyVal → Bool
  | .vNone => false
  | .vBool b => b
  | .vInt n => n != 0
  | .vStr s => s != ""

/-- Python `x or y`: `x` when truthy, else `y`. -/
def pyOr (x y : PyVal) : PyVal := if truthy x then x else y

/-- Python `d.get(key, default)` for a possibly-absent field. -/
def pyGet (field : Option PyVal) (default : PyVal) : PyVal := field.getD default

/-- Decidable equality for `Except`, used to evaluate the embedding on
concrete inputs. -/
instance {ε α : Type} [DecidableEq ε] [DecidableEq α] : DecidableEq (Except ε α) :=
  fun x y =>
    match x, y with
    | .ok a, .ok b =>
      if h : a = b then .isTrue (by rw [h]) else .isFalse (fun hc => by cases hc; exact h rfl)
    | .error a, .error b =>
      if h : a = b then .isTrue (by rw [h]) else .isFalse (fun hc => by cases hc; exact h rfl)
    | .ok _, .error _ => .isFalse (fun hc => Except.noConfusion hc)
    | .error _, .ok _ => .isFalse (fun hc => Except.noConfusion hc)

/-- Numeric value of a list of ASCII decimal digits, most significant first. -/
def natOfDigits (l : List Char) : Nat :=
  l.foldl (fun a c => a * 10 + (c.toNat - 48)) 0

/-- Python `str.split(sep)` for a one-character separator, on character
lists (the iterator-based `String.splitOn` is avoided so that the kernel
can evaluate the embedding). -/
def splitOnChar (sep : Char) : List Char → List (List Char)
  | [] => [[]]
  | c :: rest =>
    let r := splitOnChar sep rest
    if c == sep then [] :: r
    else
      match r with
      | h :: t => (c :: h) :: t
      | [] => [[c]]

/-- Whitespace trim of both ends of a character list (Python `int` ignores
surrounding whitespace). -/
def trimChars (l : List Char) : List Char :=
  ((l.dropWhile Char.isWhitespace).reverse.dropWhile Char.isWhitespace).reverse

/-- Python `str.isdigit()` restricted to ASCII: nonempty and all digits. -/
def strIsDigit (s : String) : Bool :=
  !s.toList.isEmpty && s.toList.all Char.isDigit

/-- Python `int(str)` on an ASCII string: optional sign, then digits. -/
def strToInt (s : String) : Except String Int :=
  let t := trimChars s.toList
  let core := if t.head? == some '-' || t.head? == some '+' then t.tail else t
  if core.isEmpty || !core.all Char.isDigit then
    .error "ValueError: invalid literal for int()"
  else
    .ok (if t.head? == some '-' then -(natOfDigits core : Int) else (natOfDigits core : Int))

/-- Python `int(x)` on a scalar: ints and bools convert, strings parse,
`None` raises `TypeError`. -/
def pyToInt : PyVal → Except String Int
  | .vNone => .error "TypeError: int() argument must not be None"
  | .vBool b => .ok (if b then 1 else 0)
  | .vInt n => .ok n
  | .vStr s => strToInt s

/-- Python `str(x)` on a scalar. -/
def pyToString : PyVal → String
  | .vNone => "None"
  | .vBool b => if b then "True" else "False"
  | .vInt n => toString n
  | .vStr s => s

/-- Requires a string operand (Python raises `AttributeError`/`TypeError`
when a string method or the `in` operator is applied to a non-string). -/
def asStr : PyVal → Except String String
  | .vStr s => .ok s
  | _ => .error "TypeError: expected a str"

/-- Substring search on character lists: does `needle` occur in `hay`? -/
def subSearch (needle : List Char) : List Char → Bool
  | [] => needle.isEmpty
  | c :: rest => needle.isPrefixOf (c :: rest) || subSearch needle rest

/-- Python `needle in hay` for strings (substring test). -/
def strContains (hay needle : String) : Bool :=
  subSearch needle.toList hay.toList

/-- Raw server listing as returned by the directory service: each field of
the JSON dictionary is either absent or a scalar. -/
structure Listing where
  addr : Option PyVal := none
  name : Option PyVal := none
  mapId : Option PyVal := none
  players : Option PyVal := none
  max_players : Option PyVal := none
  gameport : Option PyVal := none
  secure : Option PyVal := none
  gametype : Option PyVal := none
  region : Option PyVal := none
deriving DecidableEq

/-- Splits a character list into its maximal prefix of ASCII digits and the
rest. -/
def splitDigits : List Char → List Char × List Char
  | [] => ([], [])
  | c :: rest =>
    if c.isDigit then
      let p := splitDigits rest
      (c :: p.1, p.2)
    else ([], c :: rest)

/-- Match of `MAP_RE = ^c(?P<campaign>\d{1,2})m(?P<map>\d{1,2})_.*` with
`re.IGNORECASE`, returning the two captured numbers.  Since `\d{1,2}` is
followed by a literal that is not a digit, the regex matches exactly when
the maximal digit run has length 1 or 2 and is followed by that literal, so
no backtracking search is needed. -/
def mapMatch (s : String) : Option (Nat × Nat) :=
  match s.toList with
  | [] => none
  | c :: rest =>
    if c == 'c' || c == 'C' then
      let p1 := splitDigits rest
      if 1 ≤ p1.1.length ∧ p1.1.length ≤ 2 then
        match p1.2 with
        | m :: rest2 =>
          if m == 'm' || m == 'M' then
            let p2 := splitDigits rest2
            if 1 ≤ p2.1.length ∧ p2.1.length ≤ 2 then
              match p2.2 with
              | u :: _ => if u == '_' then some (natOfDigits p1.1, natOfDigits p2.1) else none
              | [] => none
            else none
          else none
        | [] => none
      else none
    else none

/-- Source `parse_map`: `(campaign, map)` from the map identifier, `(0, 0)`
for a non-string input or a non-matching string; the `int()` of one or two
digits cannot fail, so the function is total, like the Python one whose
`try` block absorbs any exception. -/
def parse_map (v : PyVal) : Int × Int :=
  match v with
  | .vStr s =>
    match mapMatch s with
    | some p => ((p.1 : Int), (p.2 : Int))
    | none => (0, 0)
  | _ => (0, 0)

/-- Value `s.get("name", "") or ""` of the `name` local of
`filter_servers`. -/
def nameVal (s : Listing) : PyVal := pyOr (pyGet s.name (.vStr "")) (.vStr "")

/-- Value `s.get("gametype", "") or ""` of the `gametype` local of
`filter_servers`, before lowering. -/
def tagVal (s : Listing) : PyVal := pyOr (pyGet s.gametype (.vStr "")) (.vStr "")

/-- Value `int(s.get("players", 0) or 0)` of the `players` local of
`filter_servers`. -/
def playersVal (s : Listing) : Except String Int :=
  pyToInt (pyOr (pyGet s.players (.vInt 0)) (.vInt 0))

/-- Per-listing inclusion predicate of source `filter_servers`, in the
source's evaluation order: the four locals `name`, `gametype`, `players`,
`secure` are computed first (each conversion can raise), then the four
clauses are tested. -/
def filterKeep (s : Listing) : Except String Bool := do
  let name ← asStr (nameVal s)
  let gt ← asStr (tagVal s)
  let gametype := gt.toList.map Char.toLower
  let players ← playersVal s
  let secure := truthy (pyGet s.secure (.vBool false))
  pure (("Valve Left4Dead 2".toList.isPrefixOf name.toList) &&
    subSearch "versus".toList gametype &&
    (players == 5 || players == 6 || players == 7) && secure)

/-- Source `filter_servers`: keeps the listings passing `filterKeep`,
preserving order; the first raising listing aborts the loop. -/
def filter_servers : List Listing → Except String (List Listing)
  | [] => .ok []
  | s :: rest => do
    let k ← filterKeep s
    let out ← filter_servers rest
    pure (if k then s :: out else out)

/-- Source `CAMPAIGN_PREFERENCE` table (subjective weight, lower is
better). -/
def CAMPAIGN_PREFERENCE (c : Int) : Option ℚ :=
  match c with
  | 1 => some 4 | 2 => some 5 | 3 => some 5 | 4 => some 6 | 5 => some 4
  | 6 => some 6 | 7 => some 5 | 8 => some 3 | 9 => some 5 | 10 => some 2
  | 11 => some 2 | 12 => some 4 | 13 => some 5 | 14 => some 5
  | _ => none

/-- Source `CAMPAIGN_MAP_COUNT` table (maps per campaign). -/
def CAMPAIGN_MAP_COUNT (c : Int) : Option ℚ :=
  match c with
  | 1 => some 4 | 2 => some 5 | 3 => some 4 | 4 => some 5 | 5 => some 5
  | 6 => some 3 | 7 => some 3 | 8 => some 5 | 9 => some 2 | 10 => some 5
  | 11 => some 5 | 12 => some 5 | 13 => some 4 | 14 => some 2
  | _ => none

def WEIGHT_PLAYERS : ℚ := 3/2
def WEIGHT_PING : ℚ := 5/2
def WEIGHT_MAPS_REMAIN : ℚ := 9/10
def WEIGHT_CAMPAIGN_PREF : ℚ := 2
def WEIGHT_CAMPAIGN_COMPLETION : ℚ := 2

/-- Working record built by `generate_ranked_rows` from a kept listing
(the Python `row` dictionary).  `score` and `link` are populated by the
scoring step and default until then. -/
structure Row where
  name : String
  mapId : PyVal
  players : Int
  max_players : Int
  ip : String
  port : PyVal
  secure : Bool
  gametype : PyVal
  region : Int
  ping_ms : ℚ
  score : ℚ := 0
  link : String := ""
deriving DecidableEq

/-- Player-count factor: `{5: 0.0, 6: 0.5, 7: 1.0}.get(players, 0.0)`. -/
def players_norm (players : Int) : ℚ :=
  if players = 5 then 0 else if players = 6 then 1/2 else if players = 7 then 1 else 0

/-- Effective ping used by the scorer:
`float(entry.get("ping_ms", 9999.0) or 9999.0)`.  A row always carries
`ping_ms`, and `0.0` is falsy in Python, so a zero latency is replaced by
the sentinel. -/
def pingOfEntry (p : ℚ) : ℚ := if p = 0 then 9999 else p

/-- Latency factor: linear between best expected 40 and worst expected 350,
then clamped to `[0, 1]`. -/
def ping_norm (ping : ℚ) : ℚ := max 0 (min 1 (1 - (ping - 40) / (350 - 40)))

/-- `CAMPAIGN_MAP_COUNT.get(campaign, 4.0)`. -/
def maps_in_campaign (c : Int) : ℚ := (CAMPAIGN_MAP_COUNT c).getD 4

/-- Maps-remaining factor: `(maps_in_campaign - map_idx) / 4.0`, not
clamped. -/
def maps_left_norm (c m : Int) : ℚ := (maps_in_campaign c - (m : ℚ)) / 4

/-- Campaign-completion factor:
`1.0 - ((map_idx - 1.0) / (maps_in_campaign - 1.0))`, not clamped.  The
denominator is at least 1 for every table entry and for the default 4, so
the Python division cannot be by zero. -/
def campaign_completion_norm (c m : Int) : ℚ :=
  1 - (((m : ℚ) - 1) / (maps_in_campaign c - 1))

/-- Campaign-preference factor: the table weight (default 5) clamped to
`[1, 10]`, inverted onto `[0, 1]`. -/
def campaign_norm (c : Int) : ℚ :=
  let pref := (CAMPAIGN_PREFERENCE c).getD 5
  let prefClamped := max 1 (min 10 pref)
  1 - (prefClamped - 1) / 9

/-- Source `score_server`: weighted sum of the five factors. -/
def score_server (entry : Row) : ℚ :=
  let players := entry.players
  let ping := pingOfEntry entry.ping_ms
  let cm := parse_map entry.mapId
  WEIGHT_PLAYERS * players_norm players +
  WEIGHT_PING * ping_norm ping +
  WEIGHT_MAPS_REMAIN * maps_left_norm cm.1 cm.2 +
  WEIGHT_CAMPAIGN_PREF * campaign_norm cm.1 +
  WEIGHT_CAMPAIGN_COMPLETION * campaign_completion_norm cm.1 cm.2

/-- Python `round` ties-to-even on an exact rational. -/
def roundHalfEven (q : ℚ) : Int :=
  let n := ⌊q⌋
  let f := q - n
  if f < 1/2 then n
  else if 1/2 < f then n + 1
  else if Even n then n else n + 1

/-- Python `round(q, digits)` on an exact rational. -/
def roundTo (digits : Nat) (q : ℚ) : ℚ :=
  (roundHalfEven (q * 10 ^ digits) : ℚ) / 10 ^ digits

/-- Deduplication key `(ip, port)` computed in the else branch of the
source's merge loop (`addr` falsy or without a colon): `ip` is the raw
`s.get("addr", "")` value and the port is `int(s.get("gameport", 0))` with
any exception absorbed to `None`. -/
def elseKey (s : Listing) : PyVal × Option Int :=
  (pyGet s.addr (.vStr ""), (pyToInt (pyGet s.gameport (.vInt 0))).toOption)

/-- Deduplication key of the source's merge loop.  The guard
`if addr and ":" in addr` short-circuits, so a falsy non-string `addr`
reaches the else branch without raising, while a truthy non-string `addr`
raises `TypeError` at `":" in addr`, and an address with two or more
colons raises `ValueError` at the two-variable unpacking of
`addr.split(":")`. -/
def dedupKey (s : Listing) : Except String (PyVal × Option Int) :=
  let addr := pyGet s.addr (.vStr "")
  if truthy addr then
    match addr with
    | .vStr a =>
      match splitOnChar ':' a.toList with
      | [_] => .ok (elseKey s)
      | [ip, port_str] =>
        let port : Option Int :=
          match pyToInt (pyGet s.gameport (.vStr (String.mk port_str))) with
          | .ok n => some n
          | .error _ =>
            match strToInt (String.mk port_str) with
            | .ok n => some n
            | .error _ => none
        .ok (.vStr (String.mk ip), port)
      | _ => .error "ValueError: too many values to unpack"
    | _ => .error "TypeError: argument of type is not iterable"
  else .ok (elseKey s)

/-- Merge loop of `fetch_servers_multi`: first listing with a given key is
kept, later ones with a seen key are dropped; a raising key computation
aborts the merge. -/
def dedupeAux : List Listing → List (PyVal × Option Int) → Except String (List Listing)
  | [], _ => .ok []
  | s :: rest, seen =>
    match dedupKey s with
    | .error e => .error e
    | .ok k =>
      if k ∈ seen then dedupeAux rest seen
      else do
        let out ← dedupeAux rest (k :: seen)
        pure (s :: out)

def dedupe (l : List Listing) : Except String (List Listing) := dedupeAux l []

/-- Source `fetch_servers_multi` after the network phase: the per-path
batches (already `[]` for a failed path, since `_single_fetch` absorbs its
own errors) are concatenated in completion order and deduplicated. -/
def fetch_servers_multi (pathResults : List (List Listing)) : Except String (List Listing) :=
  dedupe pathResults.flatten

/-- Observable outcome of one external `ping` invocation: the `try` block
raised (timeout, spawn failure, ...), or the process ran and produced a
return code and a stdout text. -/
inductive PingObservation where
  | exc : PingObservation
  | run : Int → String → PingObservation
deriving DecidableEq

/-- Attempt of the regex `time[=<]?\s*([0-9.]+)\s*ms` (IGNORECASE) at the
head of the character list, returning the captured group.  The `[0-9.]+`
group is followed by `\s*` and a literal that is neither a digit, a dot nor
whitespace, so the maximal run is the only candidate and no backtracking is
needed. -/
def matchTimeAt (l : List Char) : Option (List Char) :=
  match l with
  | t :: i :: m :: e :: rest =>
    if t.toLower == 't' && i.toLower == 'i' && m.toLower == 'm' && e.toLower == 'e' then
      let rest1 := match rest with
        | c :: r => if c == '=' || c == '<' then r else rest
        | [] => rest
      let rest2 := rest1.dropWhile Char.isWhitespace
      let p := rest2.span (fun c => c.isDigit || c == '.')
      if p.1.isEmpty then none
      else
        let rest3 := p.2.dropWhile Char.isWhitespace
        match rest3 with
        | a :: b :: _ => if a.toLower == 'm' && b.toLower == 's' then some p.1 else none
        | _ => none
    else none
  | _ => none

/-- Leftmost `re.search` of the round-trip-time pattern. -/
def searchTimeMs : List Char → Option (List Char)
  | [] => none
  | c :: rest =>
    match matchTimeAt (c :: rest) with
    | some g => some g
    | none => searchTimeMs rest

/-- Python `float` applied to a string drawn from `[0-9.]+`: at most one
dot and at least one digit. -/
def floatOfDigitString (s : List Char) : Except String ℚ :=
  match splitOnChar '.' s with
  | [w] => if !w.isEmpty && w.all Char.isDigit then .ok (natOfDigits w : ℚ)
           else .error "ValueError: could not convert string to float"
  | [w, f] =>
    if (!w.isEmpty || !f.isEmpty) && w.all Char.isDigit && f.all Char.isDigit then
      .ok ((natOfDigits w : ℚ) + (natOfDigits f : ℚ) / (10 ^ f.length))
    else .error "ValueError: could not convert string to float"
  | _ => .error "ValueError: could not convert string to float"

/-- Source `icmp_ping_ip` given the observed subprocess outcome: sentinel
9999.0 when the `try` block raised, the return code is nonzero, the regex
does not match, or `float` raises (absorbed by the outer `except`);
otherwise the parsed round-trip time rounded to one decimal place. -/
def icmp_ping_ip (obs : PingObservation) : ℚ :=
  match obs with
  | .exc => 9999
  | .run rc stdout =>
    if rc != 0 then 9999
    else
      match searchTimeMs stdout.toList with
      | none => 9999
      | some g =>
        match floatOfDigitString g with
        | .ok v => roundTo 1 v
        | .error _ => 9999

/-- Source `parallel_icmp` as a function of the per-host probe oracle: the
first `min(sample, len(rows))` rows (when positive) get
`ping_ms := float(icmp_ping_ip(ip))` written; later rows are untouched.
Each worker writes a distinct row exactly once, so the pool's completion
order does not affect the resulting list, and the worker-level `except`
(setting 9999.0) is unreachable because `icmp_ping_ip` is total. -/
def parallel_icmp (oracle : String → PingObservation) (rows : List Row) (sample : Int) : List Row :=
  let n : Int := min sample (rows.length : Int)
  if n ≤ 0 then rows
  else
    (rows.take n.toNat).map (fun r => { r with ping_ms := icmp_ping_ip (oracle r.ip) }) ++
      rows.drop n.toNat

/-- Port field of a built row:
`int(s.get("gameport", port_str)) if str(s.get("gameport", "")).isdigit()
or port_str.isdigit() else s.get("gameport", port_str)`. -/
def portVal (s : Listing) (port_str : String) : Except String PyVal :=
  if strIsDigit (pyToString (pyGet s.gameport (.vStr ""))) || strIsDigit port_str then
    (pyToInt (pyGet s.gameport (.vStr port_str))).map PyVal.vInt
  else .ok (pyGet s.gameport (.vStr port_str))

/-- Row construction of `generate_ranked_rows` for one kept listing, in the
source's evaluation order (the address split first, then the dictionary
literal fields left to right).  The `name` branch for a truthy non-string
name is unreachable from the pipeline: such a listing either raises in
`filter_servers` or is filtered out before rows are built. -/
def buildRow (s : Listing) : Except String Row := do
  let addr ← asStr (pyGet s.addr (.vStr ""))
  let pr ← (match splitOnChar ':' addr.toList with
    | [a] => Except.ok (String.mk a, pyToString (pyGet s.gameport (.vStr "")))
    | [ip, ps] => Except.ok (String.mk ip, String.mk ps)
    | _ => Except.error "ValueError: too many values to unpack")
  let name ← (match pyGet s.name (.vStr "") with
    | .vStr nm => Except.ok nm
    | _ => Except.error "unreachable: post-filter names are strings")
  let players ← playersVal s
  let mp ← pyToInt (pyOr (pyGet s.max_players (.vInt 0)) (.vInt 0))
  let port ← portVal s pr.2
  let region ← pyToInt (pyOr (pyGet s.region (.vInt 0)) (.vInt 0))
  pure { name := name, mapId := pyGet s.mapId (.vStr ""), players := players,
         max_players := mp, ip := pr.1, port := port,
         secure := truthy (pyGet s.secure (.vBool false)),
         gametype := pyGet s.gametype (.vStr ""), region := region, ping_ms := 9999 }

def buildRows : List Listing → Except String (List Row)
  | [] => .ok []
  | s :: rest => do
    let r ← buildRow s
    let out ← buildRows rest
    pure (r :: out)

/-- Scoring step: `r["score"] = round(score_server(r), 4)` and the derived
connect link. -/
def scoreRow (r : Row) : Row :=
  { r with score := roundTo 4 (score_server r),
           link := "steam://connect/" ++ r.ip ++ ":" ++ pyToString r.port }

/-- Sort key of the final ranking, as the lexicographic tuple
`(-score, ping_ms, -players, name)` of the source's `rows.sort`.  The name
enters as its character list: Python compares strings lexicographically by
code points, which is the lexicographic order on `List Char`. -/
def sortKey (r : Row) : ℚ ×ₗ (ℚ ×ₗ (ℤ ×ₗ List Char)) :=
  toLex (-r.score, toLex (r.ping_ms, toLex (-r.players, r.name.toList)))

def rowLE (a b : Row) : Prop := sortKey a ≤ sortKey b

instance : DecidableRel rowLE :=
  fun a b => inferInstanceAs (Decidable (sortKey a ≤ sortKey b))

/-- Source `rows.sort(key=lambda x: (-x["score"], x["ping_ms"],
-x["players"], x["name"]))`: Python's sort is the stable sort by this key;
a stable sort with respect to a total preorder is uniquely determined, and
insertion sort is stable, so the two agree on every input. -/
def sortRows (rows : List Row) : List Row := List.insertionSort rowLE rows

/-- Source `generate_ranked_rows` downstream of the network phase: merge
and dedupe the per-path batches, filter, build rows, probe, score, sort. -/
def generate_ranked_rows (pathResults : List (List Listing))
    (oracle : String → PingObservation) (sample : Int) : Except String (List Row) := do
  let raw ← fetch_servers_multi pathResults
  let kept ← filter_servers raw
  let rows ← buildRows kept
  let probed := parallel_icmp oracle rows sample
  let scored := probed.map scoreRow
  pure (sortRows scored)

/-- Is the value a Python string? -/
def isStrVal : PyVal → Bool
  | .vStr _ => true
  | _ => false

/-- Four-clause inclusion predicate as the specification states it: vendor
name prefix, case-insensitive mode substring, player count in `{5, 6, 7}`
(missing treated as 0), secure flag true.  Stated independently of the
source's `filterKeep` for the refinement comparison. -/
def claimKeep (s : Listing) : Bool :=
  (match nameVal s with
   | .vStr nm => "Valve Left4Dead 2".toList.isPrefixOf nm.toList
   | _ => false) &&
  (match tagVal s with
   | .vStr tag => subSearch "versus".toList (tag.toList.map Char.toLower)
   | _ => false) &&
  (match playersVal s with
   | .ok n => n == 5 || n == 6 || n == 7
   | .error _ => false) &&
  truthy (pyGet s.secure (.vBool false))

/-- Fields read by the filter are well typed: the name and tag locals are
strings and the player count converts to an integer. -/
def wfFilterFields (s : Listing) : Bool :=
  isStrVal (nameVal s) && isStrVal (tagVal s) && (playersVal s).isOk

/-- The address field, when present, is a string with at most one colon
(the shape the merge loop and the row builder unpack without raising). -/
def wfAddr : Option PyVal → Bool
  | none => true
  | some (.vStr a) => (splitOnChar ':' a.toList).length ≤ 2
  | some _ => false

/-- The explicit game-port field, when present, is an integer. -/
def wfPortField : Option PyVal → Bool
  | none => true
  | some (.vInt _) => true
  | some _ => false

/-- Well-formed raw listing: every field the pipeline converts does convert
without raising. -/
def wfListing (s : Listing) : Bool :=
  wfAddr s.addr && wfFilterFields s &&
  (pyToInt (pyOr (pyGet s.max_players (.vInt 0)) (.vInt 0))).isOk &&
  (pyToInt (pyOr (pyGet s.region (.vInt 0)) (.vInt 0))).isOk &&
  wfPortField s.gameport

instance : IsTotal Row rowLE := ⟨fun a b => le_total (sortKey a) (sortKey b)⟩

instance : IsTrans Row rowLE := ⟨fun _ _ _ h₁ h₂ => le_trans h₁ h₂⟩

/-- Helper: every map count stored in the campaign table is between 2 and
5. -/
theorem map_count_bounds {c : Int} {q : ℚ} (h : CAMPAIGN_MAP_COUNT c = some q) :
    2 ≤ q ∧ q ≤ 5 := by
  unfold CAMPAIGN_MAP_COUNT at h
  split at h <;> simp_all <;> norm_num [← h]

/-- Helper: the scorer's map count (table value or default 4) is between 2
and 5 for every campaign number. -/
theorem maps_in_campaign_bounds (c : Int) :
    2 ≤ maps_in_campaign c ∧ maps_in_campaign c ≤ 5 := by
  unfold maps_in_campaign
  cases h : CAMPAIGN_MAP_COUNT c with
  | none => norm_num
  | some q => simpa using map_count_bounds h

/-- C4 counterexample: the string "c0m0_a" matches the
`c<digits>m<digits>_` shape, yet `parse_map` returns `(0, 0)`, refuting the
claimed equivalence; and the matching string "c0m5_a" yields the captured
numbers `(0, 5)`, whose first component is not positive. -/
theorem C4_counterexample :
    (mapMatch "c0m0_a").isSome = true ∧ parse_map (.vStr "c0m0_a") = (0, 0) ∧
    mapMatch "c0m5_a" = some (0, 5) ∧ parse_map (.vStr "c0m5_a") = (0, 5) ∧
    ¬((0:Int) > 0) := by decide

/-- C4 (amended): `parse_map` is total (never raises); on a string matching
the `c<digits>m<digits>_` shape it returns the two captured numbers (which
are non-negative but may be zero), on a non-matching string it returns
`(0, 0)`, and on any non-string input it returns `(0, 0)`. -/
theorem C4_parse_map_amended :
    (∀ s c m, mapMatch s = some (c, m) → parse_map (.vStr s) = ((c : Int), (m : Int))) ∧
    (∀ s, mapMatch s = none → parse_map (.vStr s) = (0, 0)) ∧
    (∀ v, (∀ s, v ≠ PyVal.vStr s) → parse_map v = (0, 0)) := by
  refine ⟨?_, ?_, ?_⟩
  · intro s c m h; simp [parse_map, h]
  · intro s h; simp [parse_map, h]
  · intro v hv
    cases v with
    | vStr s => exact absurd rfl (hv s)
    | vNone => rfl
    | vBool b => rfl
    | vInt n => rfl

/-- Witness for C4 at concrete inputs. -/
theorem C4_witness :
    parse_map (.vStr "c10m2_drainage") = (10, 2) ∧
    parse_map (.vStr "hello") = (0, 0) ∧
    parse_map PyVal.vNone = (0, 0) :=
  ⟨C4_parse_map_amended.1 "c10m2_drainage" 10 2 (by decide),
   C4_parse_map_amended.2.1 "hello" (by decide),
   C4_parse_map_amended.2.2 PyVal.vNone (fun s h => PyVal.noConfusion h)⟩

/-- C3 counterexample: on an unrecognized map identifier `parse_map`
degrades to `(0, 0)` and the campaign-completion factor computed by
`score_server` is `4/3`, outside `[0, 1]`. -/
theorem C3_counterexample :
    parse_map (.vStr "") = (0, 0) ∧
    campaign_completion_norm 0 0 = 4/3 ∧ ¬(campaign_completion_norm 0 0 ≤ 1) := by
  refine ⟨by decide, ?_, ?_⟩ <;>
    norm_num [campaign_completion_norm, maps_in_campaign, CAMPAIGN_MAP_COUNT]

/-- C3 (amended): the player-count, latency and campaign-preference factors
of `score_server` always lie in `[0, 1]`; the maps-remaining and
campaign-completion factors lie in `[0, 1]` whenever the parsed map index
is within the campaign range `1 ≤ m ≤ mapsInCampaign` (and can leave
`[0, 1]` otherwise, see the counterexample); the campaign-completion
factor is 1 on a campaign's first map, 0 on its last map, and is the
linear interpolation `1 - (m - 1)/(mapsInCampaign - 1)` in between. -/
theorem C3_factor_ranges (players : Int) (ping : ℚ) (c m : Int) :
    (0 ≤ players_norm players ∧ players_norm players ≤ 1) ∧
    (0 ≤ ping_norm ping ∧ ping_norm ping ≤ 1) ∧
    (0 ≤ campaign_norm c ∧ campaign_norm c ≤ 1) ∧
    (1 ≤ m → (m : ℚ) ≤ maps_in_campaign c →
      (0 ≤ maps_left_norm c m ∧ maps_left_norm c m ≤ 1) ∧
      (0 ≤ campaign_completion_norm c m ∧ campaign_completion_norm c m ≤ 1)) ∧
    campaign_completion_norm c 1 = 1 ∧
    ((m : ℚ) = maps_in_campaign c → campaign_completion_norm c m = 0) := by
  obtain ⟨hlo, hhi⟩ := maps_in_campaign_bounds c
  refine ⟨?_, ?_, ?_, ?_, ?_, ?_⟩
  · unfold players_norm
    split <;> norm_num
    split <;> norm_num
    split <;> norm_num
  · constructor
    · exact le_max_left 0 _
    · exact max_le (by norm_num) (min_le_left 1 _)
  · unfold campaign_norm
    have h1 : (1:ℚ) ≤ max 1 (min 10 ((CAMPAIGN_PREFERENCE c).getD 5)) := le_max_left 1 _
    have h2 : max 1 (min 10 ((CAMPAIGN_PREFERENCE c).getD 5)) ≤ 10 :=
      max_le (by norm_num) (min_le_left 10 _)
    constructor
    · have : (max 1 (min 10 ((CAMPAIGN_PREFERENCE c).getD 5)) - 1) / 9 ≤ 1 := by
        rw [div_le_one (by norm_num)]; linarith
      linarith
    · have : 0 ≤ (max 1 (min 10 ((CAMPAIGN_PREFERENCE c).getD 5)) - 1) / 9 :=
        div_nonneg (by linarith) (by norm_num)
      linarith
  · intro hm1 hm2
    have hm1q : (1:ℚ) ≤ (m : ℚ) := by exact_mod_cast hm1
    refine ⟨⟨?_, ?_⟩, ?_, ?_⟩
    · exact div_nonneg (by linarith) (by norm_num)
    · unfold maps_left_norm
      rw [div_le_one (by norm_num)]; linarith
    · unfold campaign_completion_norm
      have : ((m:ℚ) - 1) / (maps_in_campaign c - 1) ≤ 1 := by
        rw [div_le_one (by linarith)]; linarith
      linarith
    · unfold campaign_completion_norm
      have : 0 ≤ ((m:ℚ) - 1) / (maps_in_campaign c - 1) :=
        div_nonneg (by linarith) (by linarith)
      linarith
  · unfold campaign_completion_norm
    norm_num
  · intro hm
    unfold campaign_completion_norm
    rw [hm, div_self (by linarith)]
    norm_num

/-- Witness for C3 at the concrete record shape of the specification's
end-to-end scenario (campaign 10, map 2, players 6, latency 80). -/
theorem C3_witness :
    (0 ≤ players_norm 6 ∧ players_norm 6 ≤ 1) ∧
    (0 ≤ maps_left_norm 10 2 ∧ maps_left_norm 10 2 ≤ 1) ∧
    (0 ≤ campaign_completion_norm 10 2 ∧ campaign_completion_norm 10 2 ≤ 1) ∧
    campaign_completion_norm 10 1 = 1 :=
  ⟨(C3_factor_ranges 6 80 10 2).1,
   ((C3_factor_ranges 6 80 10 2).2.2.2.1 (by decide)
     (by norm_num [maps_in_campaign, CAMPAIGN_MAP_COUNT])).1,
   ((C3_factor_ranges 6 80 10 2).2.2.2.1 (by decide)
     (by norm_num [maps_in_campaign, CAMPAIGN_MAP_COUNT])).2,
   (C3_factor_ranges 6 80 10 1).2.2.2.2.1⟩

/-- C6 counterexample: `score_server` reads the latency through
`entry.get("ping_ms", 9999.0) or 9999.0`, and `0.0` is falsy, so a
measured latency of 0 ms is replaced by the sentinel: the factor is 0 at
latency 0 but 1 at latency 1, refuting monotone non-increase and the
`latency ≤ 40 → 1.0` clause at latency 0. -/
theorem C6_counterexample :
    (0:ℚ) < 1 ∧ (0:ℚ) ≤ 40 ∧
    ping_norm (pingOfEntry 0) = 0 ∧ ping_norm (pingOfEntry 1) = 1 := by
  norm_num [ping_norm, pingOfEntry]

/-- C6 (amended): for positive latencies the factor is monotonically
non-increasing, always lies in `[0, 1]`, equals 1 for `0 < latency ≤ 40`,
equals 0 for `latency ≥ 350`, and maps the sentinel 9999 to 0; a latency
of exactly 0 is swallowed by the falsy-or default and also maps to 0. -/
theorem C6_latency_amended (p q : ℚ) :
    (0 < p → p ≤ q → ping_norm (pingOfEntry q) ≤ ping_norm (pingOfEntry p)) ∧
    (0 ≤ ping_norm (pingOfEntry p) ∧ ping_norm (pingOfEntry p) ≤ 1) ∧
    (0 < p → p ≤ 40 → ping_norm (pingOfEntry p) = 1) ∧
    (350 ≤ p → ping_norm (pingOfEntry p) = 0) ∧
    ping_norm (pingOfEntry 9999) = 0 ∧
    ping_norm (pingOfEntry 0) = 0 := by
  have norm_hi : ∀ x : ℚ, 350 ≤ x → ping_norm x = 0 := by
    intro x hx
    unfold ping_norm
    have hf : 1 - (x - 40) / (350 - 40) ≤ 0 := by
      have : (1:ℚ) ≤ (x - 40) / (350 - 40) := by
        rw [le_div_iff₀ (by norm_num)]; linarith
      linarith
    rw [min_eq_right (by linarith), max_eq_left hf]
  have norm_lo : ∀ x : ℚ, x ≤ 40 → ping_norm x = 1 := by
    intro x hx
    unfold ping_norm
    have hf : (1:ℚ) ≤ 1 - (x - 40) / (350 - 40) := by
      have : (x - 40) / (350 - 40) ≤ 0 := by
        apply div_nonpos_of_nonpos_of_nonneg <;> linarith
      linarith
    rw [min_eq_left hf, max_eq_right (by norm_num)]
  have entry_pos : ∀ x : ℚ, 0 < x → pingOfEntry x = x := by
    intro x hx
    unfold pingOfEntry
    rw [if_neg (by linarith)]
  refine ⟨?_, ⟨le_max_left 0 _, max_le (by norm_num) (min_le_left 1 _)⟩, ?_, ?_, ?_, ?_⟩
  · intro hp hpq
    rw [entry_pos p hp, entry_pos q (by linarith)]
    unfold ping_norm
    have : 1 - (q - 40) / (350 - 40) ≤ 1 - (p - 40) / (350 - 40) := by
      have h310 : (p - 40) / (350 - 40) ≤ (q - 40) / (350 - 40) :=
        div_le_div_of_nonneg_right (by linarith) (by norm_num)
      linarith
    exact max_le_max le_rfl (min_le_min le_rfl this)
  · intro hp h40
    rw [entry_pos p hp]; exact norm_lo p h40
  · intro h350
    rw [entry_pos p (by linarith)]; exact norm_hi p h350
  · rw [entry_pos 9999 (by norm_num)]; exact norm_hi 9999 (by norm_num)
  · have : pingOfEntry 0 = 9999 := by unfold pingOfEntry; rw [if_pos rfl]
    rw [this]; exact norm_hi 9999 (by norm_num)

/-- Witness for C6 at latencies 50 and 100. -/
theorem C6_witness :
    ping_norm (pingOfEntry 100) ≤ ping_norm (pingOfEntry 50) ∧
    (0 ≤ ping_norm (pingOfEntry 100) ∧ ping_norm (pingOfEntry 100) ≤ 1) ∧
    ping_norm (pingOfEntry 20) = 1 ∧
    ping_norm (pingOfEntry 400) = 0 ∧
    ping_norm (pingOfEntry 9999) = 0 :=
  ⟨(C6_latency_amended 50 100).1 (by decide) (by decide),
   (C6_latency_amended 100 50).2.1,
   (C6_latency_amended 20 50).2.2.1 (by decide) (by decide),
   (C6_latency_amended 400 50).2.2.2.1 (by decide),
   (C6_latency_amended 50 50).2.2.2.2.1⟩

/-- Helper: invariant of the merge loop.  When `dedupeAux l seen` succeeds,
every kept listing has a computable key outside `seen`, kept listings have
pairwise distinct keys, and for every key not yet seen the kept listing is
exactly the first listing of `l` with that key. -/
theorem dedupeAux_spec (l : List Listing) :
    ∀ (seen : List (PyVal × Option Int)) (out : List Listing),
      dedupeAux l seen = .ok out →
      (∀ t ∈ out, ∃ k, dedupKey t = .ok k ∧ k ∉ seen) ∧
      List.Pairwise (fun a b => dedupKey a ≠ dedupKey b) out ∧
      (∀ k : PyVal × Option Int, k ∉ seen →
        out.find? (fun t => decide (dedupKey t = .ok k)) =
        l.find? (fun t => decide (dedupKey t = .ok k))) := by
  induction l with
  | nil =>
    intro seen out h
    simp only [dedupeAux] at h
    cases h
    simp
  | cons s rest ih =>
    intro seen out h
    unfold dedupeAux at h
    cases hk : dedupKey s with
    | error e => rw [hk] at h; exact Except.noConfusion h
    | ok k0 =>
      rw [hk] at h
      dsimp only at h
      by_cases hmem : k0 ∈ seen
      · rw [if_pos hmem] at h
        obtain ⟨h1, h2, h3⟩ := ih seen out h
        refine ⟨h1, h2, ?_⟩
        intro k hks
        have hne : k0 ≠ k := fun he => hks (he ▸ hmem)
        rw [h3 k hks, List.find?_cons_of_neg]
        simp [hk, hne]
      · rw [if_neg hmem] at h
        cases hrec : dedupeAux rest (k0 :: seen) with
        | error e => rw [hrec] at h; exact absurd h (by simp [Bind.bind, Except.bind])
        | ok out1 =>
          rw [hrec] at h
          simp only [Bind.bind, Except.bind, pure, Except.pure, Except.ok.injEq] at h
          subst h
          obtain ⟨h1, h2, h3⟩ := ih (k0 :: seen) out1 hrec
          refine ⟨?_, ?_, ?_⟩
          · intro t ht
            rcases List.mem_cons.mp ht with rfl | ht1
            · exact ⟨k0, hk, hmem⟩
            · obtain ⟨kt, hkt, hks⟩ := h1 t ht1
              exact ⟨kt, hkt, fun hc => hks (List.mem_cons_of_mem _ hc)⟩
          · refine List.pairwise_cons.mpr ⟨?_, h2⟩
            intro t ht1
            obtain ⟨kt, hkt, hks⟩ := h1 t ht1
            have : kt ≠ k0 := fun he => hks (he ▸ List.mem_cons_self k0 _)
            rw [hk, hkt]
            simp [this.symm]
          · intro k hks
            by_cases hk0 : k = k0
            · subst hk0
              rw [List.find?_cons_of_pos _ (by simp [hk]),
                  List.find?_cons_of_pos _ (by simp [hk])]
            · have hkin : k ∉ k0 :: seen := by
                simp only [List.mem_cons, not_or]
                exact ⟨hk0, hks⟩
              rw [List.find?_cons_of_neg _ (by simp [hk, Ne.symm hk0]),
                  List.find?_cons_of_neg _ (by simp [hk, Ne.symm hk0])]
              exact h3 k hkin

/-- C1: the merged output of `fetch_servers_multi` has pairwise distinct
deduplication keys, and for every key the kept entry is exactly the first
listing, in concatenated iteration order over the per-path batches, whose
key computes to it — first seen wins, later duplicates are dropped. -/
theorem C1_dedup_first_seen (pathResults : List (List Listing)) (out : List Listing)
    (h : fetch_servers_multi pathResults = .ok out) :
    List.Pairwise (fun a b => dedupKey a ≠ dedupKey b) out ∧
    ∀ k : PyVal × Option Int,
      out.find? (fun t => decide (dedupKey t = .ok k)) =
      pathResults.flatten.find? (fun t => decide (dedupKey t = .ok k)) := by
  obtain ⟨_, h2, h3⟩ := dedupeAux_spec pathResults.flatten [] out h
  exact ⟨h2, fun k => h3 k (by simp)⟩

/-- Witness for C1: two paths with an overlapping address; the duplicate
from the second path is dropped and the kept entries have distinct keys. -/
theorem C1_witness :
    List.Pairwise (fun a b => dedupKey a ≠ dedupKey b)
      [{ addr := some (.vStr "1.2.3.4:27015"), name := some (.vStr "A") },
       { addr := some (.vStr "5.6.7.8:27016"), name := some (.vStr "C") }] :=
  (C1_dedup_first_seen
    [[{ addr := some (.vStr "1.2.3.4:27015"), name := some (.vStr "A") }],
     [{ addr := some (.vStr "1.2.3.4:27015"), name := some (.vStr "B") },
      { addr := some (.vStr "5.6.7.8:27016"), name := some (.vStr "C") }]]
    [{ addr := some (.vStr "1.2.3.4:27015"), name := some (.vStr "A") },
     { addr := some (.vStr "5.6.7.8:27016"), name := some (.vStr "C") }]
    (by decide)).1

/-- C10 counterexample: two different listings whose ports are both
unparsable (`addr` suffix "x"/"y", no explicit game port) are coerced to
the same key `(host, None)` and merged: the second is dropped. -/
theorem C10_counterexample :
    dedupKey { addr := some (.vStr "1.2.3.4:x"), name := some (.vStr "A") } =
      .ok (.vStr "1.2.3.4", none) ∧
    dedupKey { addr := some (.vStr "1.2.3.4:y"), name := some (.vStr "B") } =
      .ok (.vStr "1.2.3.4", none) ∧
    ({ addr := some (.vStr "1.2.3.4:x"), name := some (.vStr "A") } : Listing) ≠
      { addr := some (.vStr "1.2.3.4:y"), name := some (.vStr "B") } ∧
    dedupe [{ addr := some (.vStr "1.2.3.4:x"), name := some (.vStr "A") },
            { addr := some (.vStr "1.2.3.4:y"), name := some (.vStr "B") }] =
      .ok [{ addr := some (.vStr "1.2.3.4:x"), name := some (.vStr "A") }] := by decide

/-- C10 (amended): an unparsable port is coerced to the shared marker
`None`, so two listings whose ports are both unparsable are merged exactly
when their resolved hosts coincide; listings with different hosts are
never merged. -/
theorem C10_unparsable_port (a b : Listing) (h₁ h₂ : PyVal)
    (ka : dedupKey a = .ok (h₁, none)) (kb : dedupKey b = .ok (h₂, none)) :
    dedupe [a, b] = .ok (if h₁ = h₂ then [a] else [a, b]) := by
  by_cases h : h₁ = h₂
  · subst h
    simp [dedupe, dedupeAux, ka, kb, Bind.bind, Except.bind, pure, Except.pure]
  · rw [if_neg h]
    simp [dedupe, dedupeAux, ka, kb, Ne.symm h, Prod.ext_iff, Bind.bind, Except.bind,
      pure, Except.pure]

/-- Witness for C10: both ports unparsable, different hosts, both kept. -/
theorem C10_witness :
    dedupe [{ addr := some (.vStr "1.2.3.4:x") }, { addr := some (.vStr "5.6.7.8:y") }] =
      .ok [{ addr := some (.vStr "1.2.3.4:x") }, { addr := some (.vStr "5.6.7.8:y") }] := by
  have h := C10_unparsable_port { addr := some (.vStr "1.2.3.4:x") }
    { addr := some (.vStr "5.6.7.8:y") } (.vStr "1.2.3.4") (.vStr "5.6.7.8")
    (by decide) (by decide)
  rwa [if_neg (by decide)] at h

/-- Helper: on a listing whose filter-relevant fields are well typed, the
source predicate returns exactly the specification's four-clause value. -/
theorem filterKeep_wf (s : Listing) (h : wfFilterFields s = true) :
    filterKeep s = .ok (claimKeep s) := by
  simp only [wfFilterFields, Bool.and_eq_true] at h
  obtain ⟨⟨hn, ht⟩, hp⟩ := h
  cases hnm : nameVal s with
  | vStr nm =>
    cases htg : tagVal s with
    | vStr tag =>
      cases hpl : playersVal s with
      | ok n =>
        simp [filterKeep, claimKeep, hnm, htg, hpl, asStr, Bind.bind, Except.bind,
          pure, Except.pure]
      | error e => rw [hpl] at hp; exact absurd hp (by simp [Except.isOk, Except.toBool])
    | vNone => rw [htg] at ht; exact absurd ht (by simp [isStrVal])
    | vBool b => rw [htg] at ht; exact absurd ht (by simp [isStrVal])
    | vInt n => rw [htg] at ht; exact absurd ht (by simp [isStrVal])
  | vNone => rw [hnm] at hn; exact absurd hn (by simp [isStrVal])
  | vBool b => rw [hnm] at hn; exact absurd hn (by simp [isStrVal])
  | vInt n => rw [hnm] at hn; exact absurd hn (by simp [isStrVal])

/-- Helper: `filter_servers` on well-typed listings is the pure filter by
the four-clause predicate. -/
theorem filter_servers_wf (l : List Listing)
    (h : ∀ s ∈ l, wfFilterFields s = true) :
    filter_servers l = .ok (l.filter claimKeep) := by
  induction l with
  | nil => rfl
  | cons s rest ih =>
    have hs := filterKeep_wf s (h s (List.mem_cons_self s rest))
    have hr := ih (fun t ht => h t (List.mem_cons_of_mem s ht))
    simp only [filter_servers, hs, hr, Bind.bind, Except.bind, pure, Except.pure,
      List.filter_cons]

/-- C5: on listings whose read fields are well typed (name and game-mode
tag present as strings or defaulting, player count convertible, missing
player count treated as 0 and missing tag as the empty string),
`filter_servers` returns exactly the order-preserving sublist of listings
satisfying the four clauses, each listing judged independently by the pure
predicate `claimKeep` with no effect on its neighbours. -/
theorem C5_filter_characterisation (l : List Listing)
    (h : ∀ s ∈ l, wfFilterFields s = true) :
    filter_servers l = .ok (l.filter claimKeep) :=
  filter_servers_wf l h

/-- Witness for C5: a listing passing all four clauses is kept, one failing
the mode-tag clause is dropped, in input order. -/
theorem C5_witness :
    filter_servers
      [{ name := some (.vStr "Valve Left4Dead 2 #1"), gametype := some (.vStr "Versus,sv"),
         players := some (.vInt 6), secure := some (.vBool true) },
       { name := some (.vStr "Valve Left4Dead 2 #2"), gametype := some (.vStr "coop"),
         players := some (.vInt 6), secure := some (.vBool true) }] =
      .ok [{ name := some (.vStr "Valve Left4Dead 2 #1"), gametype := some (.vStr "Versus,sv"),
             players := some (.vInt 6), secure := some (.vBool true) }] := by
  have h := C5_filter_characterisation
    [{ name := some (.vStr "Valve Left4Dead 2 #1"), gametype := some (.vStr "Versus,sv"),
       players := some (.vInt 6), secure := some (.vBool true) },
     { name := some (.vStr "Valve Left4Dead 2 #2"), gametype := some (.vStr "coop"),
       players := some (.vInt 6), secure := some (.vBool true) }] (by decide)
  rw [h]
  decide

/-- Helper: two sorted lists that are permutations of one another and have
pairwise distinct sort keys are equal (antisymmetry of the key order holds
only up to key equality, so key distinctness is what pins the order). -/
theorem sorted_unique_of_nodup_keys :
    ∀ l₁ l₂ : List Row, l₁.Perm l₂ → List.Sorted rowLE l₁ → List.Sorted rowLE l₂ →
      (l₁.map sortKey).Nodup → l₁ = l₂ := by
  intro l₁
  induction l₁ with
  | nil => intro l₂ hp _ _ _; exact (hp.symm.eq_nil).symm ▸ rfl
  | cons a t₁ ih =>
    intro l₂ hp hs₁ hs₂ hnd
    cases l₂ with
    | nil => exact absurd hp.eq_nil (by simp)
    | cons b t₂ =>
      by_cases hab : a = b
      · subst hab
        have ht := ih t₂ hp.cons_inv hs₁.of_cons hs₂.of_cons
          (by simpa [List.nodup_cons] using hnd.of_cons)
        rw [ht]
      · exfalso
        have ha2 : a ∈ t₂ := by
          have : a ∈ b :: t₂ := hp.mem_iff.mp (List.mem_cons_self a t₁)
          exact (List.mem_cons.mp this).resolve_left hab
        have hb1 : b ∈ t₁ := by
          have : b ∈ a :: t₁ := hp.mem_iff.mpr (List.mem_cons_self b t₂)
          exact (List.mem_cons.mp this).resolve_left (Ne.symm hab)
        have hle₁ : rowLE a b := List.rel_of_sorted_cons hs₁ b hb1
        have hle₂ : rowLE b a := List.rel_of_sorted_cons hs₂ a ha2
        have hkey : sortKey a = sortKey b := le_antisymm hle₁ hle₂
        have : sortKey a ∉ t₁.map sortKey := (List.nodup_cons.mp (by simpa using hnd)).1
        exact this (hkey ▸ List.mem_map_of_mem sortKey hb1)

/-- C7 counterexample: two records agreeing on all four sort keys (score,
latency, player count, display name) but differing in address sort to
different orders depending on the input order, because the stable sort
preserves the input order of key-equal records. -/
theorem C7_counterexample :
    sortRows (List.reverse
      [{ name := "A", mapId := .vStr "c1m1_hotel", players := 6, max_players := 8,
         ip := "1.1.1.1", port := .vInt 27015, secure := true, gametype := .vStr "versus",
         region := 0, ping_ms := 50, score := 3, link := "" },
       { name := "A", mapId := .vStr "c1m1_hotel", players := 6, max_players := 8,
         ip := "2.2.2.2", port := .vInt 27015, secure := true, gametype := .vStr "versus",
         region := 0, ping_ms := 50, score := 3, link := "" }]) ≠
    sortRows
      [{ name := "A", mapId := .vStr "c1m1_hotel", players := 6, max_players := 8,
         ip := "1.1.1.1", port := .vInt 27015, secure := true, gametype := .vStr "versus",
         region := 0, ping_ms := 50, score := 3, link := "" },
       { name := "A", mapId := .vStr "c1m1_hotel", players := 6, max_players := 8,
         ip := "2.2.2.2", port := .vInt 27015, secure := true, gametype := .vStr "versus",
         region := 0, ping_ms := 50, score := 3, link := "" }] := by decide

/-- C7 (amended): the ranker sorts by the four-key comparator (score
descending, latency ascending, player count descending, name ascending):
the output is a sorted permutation of the input; and whenever no two
records share all four keys, the order is fully deterministic — sorting
the reversed input yields the identical output. -/
theorem C7_ranker_deterministic (rows : List Row) :
    (sortRows rows).Perm rows ∧ List.Sorted rowLE (sortRows rows) ∧
    ((rows.map sortKey).Nodup → sortRows rows.reverse = sortRows rows) := by
  refine ⟨List.perm_insertionSort _ rows, List.sorted_insertionSort _ rows, ?_⟩
  intro hnd
  have hperm : (sortRows rows.reverse).Perm (sortRows rows) :=
    ((List.perm_insertionSort _ _).trans (List.reverse_perm rows)).trans
      (List.perm_insertionSort _ rows).symm
  have hnd' : ((sortRows rows.reverse).map sortKey).Nodup := by
    have h₁ : ((sortRows rows.reverse).map sortKey).Perm (rows.map sortKey) :=
      (hperm.trans (List.perm_insertionSort _ rows)).map sortKey
    exact h₁.nodup_iff.mpr hnd
  exact sorted_unique_of_nodup_keys _ _ hperm
    (List.sorted_insertionSort _ _) (List.sorted_insertionSort _ _) hnd'

/-- Witness for C7: records with distinct keys sort identically from
either input order. -/
theorem C7_witness :
    sortRows (List.reverse
      [{ name := "A", mapId := .vStr "c1m1_hotel", players := 6, max_players := 8,
         ip := "1.1.1.1", port := .vInt 27015, secure := true, gametype := .vStr "versus",
         region := 0, ping_ms := 50, score := 3, link := "" },
       { name := "B", mapId := .vStr "c2m1_highway", players := 7, max_players := 8,
         ip := "2.2.2.2", port := .vInt 27015, secure := true, gametype := .vStr "versus",
         region := 0, ping_ms := 20, score := 5, link := "" }]) =
    sortRows
      [{ name := "A", mapId := .vStr "c1m1_hotel", players := 6, max_players := 8,
         ip := "1.1.1.1", port := .vInt 27015, secure := true, gametype := .vStr "versus",
         region := 0, ping_ms := 50, score := 3, link := "" },
       { name := "B", mapId := .vStr "c2m1_highway", players := 7, max_players := 8,
         ip := "2.2.2.2", port := .vInt 27015, secure := true, gametype := .vStr "versus",
         region := 0, ping_ms := 20, score := 5, link := "" }] :=
  (C7_ranker_deterministic
    [{ name := "A", mapId := .vStr "c1m1_hotel", players := 6, max_players := 8,
       ip := "1.1.1.1", port := .vInt 27015, secure := true, gametype := .vStr "versus",
       region := 0, ping_ms := 50, score := 3, link := "" },
     { name := "B", mapId := .vStr "c2m1_highway", players := 7, max_players := 8,
       ip := "2.2.2.2", port := .vInt 27015, secure := true, gametype := .vStr "versus",
       region := 0, ping_ms := 20, score := 5, link := "" }]).2.2 (by decide)

/-- Helper: inversion of a successful `Except` bind. -/
theorem exceptBind_ok {α β : Type} {x : Except String α} {f : α → Except String β} {b : β}
    (h : x >>= f = .ok b) : ∃ a, x = .ok a ∧ f a = .ok b := by
  cases x with
  | ok a => exact ⟨a, rfl, h⟩
  | error e => exact Except.noConfusion h

/-- C8: the probe stage touches exactly the prefix of the first
`min(sample, length)` records: each of those ends with its `ping_ms` field
set (once) to the probe result for its host and every other field
unchanged, records beyond the prefix are returned untouched (so they
retain the sentinel they carried), the length is preserved, and with
`sample = 0` the row list is returned unmodified. -/
theorem C8_probe_frame (oracle : String → PingObservation) (rows : List Row) (sample : Int) :
    ((parallel_icmp oracle rows sample).length = rows.length) ∧
    (∀ i : Nat, (i : Int) < min sample (rows.length : Int) →
      (parallel_icmp oracle rows sample)[i]? =
        rows[i]?.map (fun r => { r with ping_ms := icmp_ping_ip (oracle r.ip) })) ∧
    (∀ i : Nat, ¬((i : Int) < min sample (rows.length : Int)) →
      (parallel_icmp oracle rows sample)[i]? = rows[i]?) ∧
    (sample = 0 → parallel_icmp oracle rows sample = rows) := by
  unfold parallel_icmp
  by_cases hn : min sample (rows.length : Int) ≤ 0
  · rw [if_pos hn]
    refine ⟨rfl, ?_, fun _ _ => rfl, fun _ => rfl⟩
    intro i hi
    omega
  · rw [if_neg hn]
    have hn0 : 0 < min sample (rows.length : Int) := lt_of_not_le hn
    have hnlen : min sample (rows.length : Int) ≤ (rows.length : Int) := min_le_right _ _
    have htn : (min sample (rows.length : Int)).toNat ≤ rows.length := by omega
    have hlen1 : ((rows.take (min sample (rows.length : Int)).toNat).map
        (fun r => { r with ping_ms := icmp_ping_ip (oracle r.ip) })).length =
        (min sample (rows.length : Int)).toNat := by
      simp only [List.length_map, List.length_take]
      omega
    refine ⟨?_, ?_, ?_, ?_⟩
    · simp only [List.length_append, hlen1, List.length_drop]
      omega
    · intro i hi
      have hi' : i < (min sample (rows.length : Int)).toNat := by omega
      rw [List.getElem?_append, if_pos (by rw [hlen1]; exact hi'),
        List.getElem?_map, List.getElem?_take, if_pos hi']
    · intro i hi
      have hi' : ¬ i < (min sample (rows.length : Int)).toNat := by omega
      rw [List.getElem?_append, if_neg (by rw [hlen1]; exact hi'), hlen1,
        List.getElem?_drop]
      congr 1
      omega
    · intro h0
      exfalso
      rw [h0] at hn0
      omega

/-- Witness for C8: a two-row list with sample 1; the first row is probed,
the second keeps the sentinel and every field. -/
theorem C8_witness :
    (parallel_icmp (fun _ => PingObservation.exc)
      [{ name := "A", mapId := .vStr "c1m1_hotel", players := 6, max_players := 8,
         ip := "1.1.1.1", port := .vInt 27015, secure := true, gametype := .vStr "versus",
         region := 0, ping_ms := 9999 },
       { name := "B", mapId := .vStr "c2m1_highway", players := 7, max_players := 8,
         ip := "2.2.2.2", port := .vInt 27016, secure := true, gametype := .vStr "versus",
         region := 0, ping_ms := 9999 }] 1)[1]? =
      some { name := "B", mapId := .vStr "c2m1_highway", players := 7, max_players := 8,
             ip := "2.2.2.2", port := .vInt 27016, secure := true, gametype := .vStr "versus",
             region := 0, ping_ms := 9999 } ∧
    parallel_icmp (fun _ => PingObservation.exc)
      [{ name := "A", mapId := .vStr "c1m1_hotel", players := 6, max_players := 8,
         ip := "1.1.1.1", port := .vInt 27015, secure := true, gametype := .vStr "versus",
         region := 0, ping_ms := 9999 }] 0 =
      [{ name := "A", mapId := .vStr "c1m1_hotel", players := 6, max_players := 8,
         ip := "1.1.1.1", port := .vInt 27015, secure := true, gametype := .vStr "versus",
         region := 0, ping_ms := 9999 }] :=
  ⟨by
    have h := (C8_probe_frame (fun _ => PingObservation.exc)
      [{ name := "A", mapId := .vStr "c1m1_hotel", players := 6, max_players := 8,
         ip := "1.1.1.1", port := .vInt 27015, secure := true, gametype := .vStr "versus",
         region := 0, ping_ms := 9999 },
       { name := "B", mapId := .vStr "c2m1_highway", players := 7, max_players := 8,
         ip := "2.2.2.2", port := .vInt 27016, secure := true, gametype := .vStr "versus",
         region := 0, ping_ms := 9999 }] 1).2.2.1 1 (by decide)
    rw [h]; rfl,
   (C8_probe_frame (fun _ => PingObservation.exc)
      [{ name := "A", mapId := .vStr "c1m1_hotel", players := 6, max_players := 8,
         ip := "1.1.1.1", port := .vInt 27015, secure := true, gametype := .vStr "versus",
         region := 0, ping_ms := 9999 }] 0).2.2.2 rfl⟩

/-- Helper: a parsed `[0-9.]+` group converts to a non-negative rational. -/
theorem floatOfDigitString_nonneg {l : List Char} {v : ℚ}
    (h : floatOfDigitString l = .ok v) : 0 ≤ v := by
  unfold floatOfDigitString at h
  split at h
  · split at h
    · cases h
      positivity
    · exact Except.noConfusion h
  · split at h
    · cases h
      positivity
    · exact Except.noConfusion h
  · exact Except.noConfusion h

/-- Helper: ties-to-even rounding preserves non-negativity. -/
theorem roundHalfEven_nonneg {q : ℚ} (h : 0 ≤ q) : 0 ≤ roundHalfEven q := by
  have h0 : (0:Int) ≤ ⌊q⌋ := Int.floor_nonneg.mpr h
  simp only [roundHalfEven]
  split_ifs <;> omega

/-- Helper: `round(q, d)` preserves non-negativity. -/
theorem roundTo_nonneg {d : Nat} {q : ℚ} (h : 0 ≤ q) : 0 ≤ roundTo d q := by
  unfold roundTo
  apply div_nonneg _ (by positivity)
  exact_mod_cast roundHalfEven_nonneg (mul_nonneg h (by positivity))

/-- C9: the prober returns either the parsed round-trip time, a
non-negative value rounded to one decimal place, or the sentinel 9999 (on
timeout, non-zero exit, unparsable output, or an exception); every value
it returns is non-negative; every freshly built record carries the
sentinel 9999; and the probe stage keeps every record's latency
non-negative — so after record construction `ping_ms` is always a finite
non-negative number or the sentinel, never negative and never unset. -/
theorem C9_latency_values :
    (∀ obs, icmp_ping_ip obs = 9999 ∨ ∃ v : ℚ, 0 ≤ v ∧ icmp_ping_ip obs = roundTo 1 v) ∧
    (∀ obs, 0 ≤ icmp_ping_ip obs) ∧
    (∀ s row, buildRow s = .ok row → row.ping_ms = 9999) ∧
    (∀ (oracle : String → PingObservation) (rows : List Row) (sample : Int),
      (∀ r ∈ rows, 0 ≤ r.ping_ms) →
      ∀ r ∈ parallel_icmp oracle rows sample, 0 ≤ r.ping_ms) := by
  have hshape : ∀ obs, icmp_ping_ip obs = 9999 ∨
      ∃ v : ℚ, 0 ≤ v ∧ icmp_ping_ip obs = roundTo 1 v := by
    intro obs
    cases obs with
    | exc => exact Or.inl rfl
    | run rc out =>
      by_cases hrc : (rc != 0) = true
      · exact Or.inl (by simp [icmp_ping_ip, hrc])
      · cases hs : searchTimeMs out.data with
        | none => exact Or.inl (by simp [icmp_ping_ip, hrc, hs])
        | some g =>
          cases hf : floatOfDigitString g with
          | ok v =>
            exact Or.inr ⟨v, floatOfDigitString_nonneg hf,
              by simp [icmp_ping_ip, hrc, hs, hf]⟩
          | error e => exact Or.inl (by simp [icmp_ping_ip, hrc, hs, hf])
  have hnn : ∀ obs, 0 ≤ icmp_ping_ip obs := by
    intro obs
    rcases hshape obs with h | ⟨v, hv, h⟩
    · rw [h]; norm_num
    · rw [h]; exact roundTo_nonneg hv
  refine ⟨hshape, hnn, ?_, ?_⟩
  · intro s row h
    unfold buildRow at h
    obtain ⟨addr, _, h⟩ := exceptBind_ok h
    obtain ⟨pr, _, h⟩ := exceptBind_ok h
    obtain ⟨nm, _, h⟩ := exceptBind_ok h
    obtain ⟨players, _, h⟩ := exceptBind_ok h
    obtain ⟨mp, _, h⟩ := exceptBind_ok h
    obtain ⟨port, _, h⟩ := exceptBind_ok h
    obtain ⟨region, _, h⟩ := exceptBind_ok h
    simp only [pure, Except.pure, Except.ok.injEq] at h
    rw [← h]
  · intro oracle rows sample hin r hr
    simp only [parallel_icmp] at hr
    split at hr
    · exact hin r hr
    · rcases List.mem_append.mp hr with hmem | hmem
      · obtain ⟨r₀, _, rfl⟩ := List.mem_map.mp hmem
        exact hnn _
      · exact hin r (List.drop_subset _ rows hmem)

/-- Witness for C9: a freshly built row carries the sentinel, and probing
with a failing oracle keeps every latency non-negative. -/
theorem C9_witness :
    ({ name := "Valve Left4Dead 2 x", mapId := .vStr "", players := 6, max_players := 0,
       ip := "1.2.3.4", port := .vInt 27015, secure := true, gametype := .vStr "versus",
       region := 0, ping_ms := 9999 } : Row).ping_ms = 9999 ∧
    (∀ r ∈ parallel_icmp (fun _ => PingObservation.exc)
      [{ name := "Valve Left4Dead 2 x", mapId := .vStr "", players := 6, max_players := 0,
         ip := "1.2.3.4", port := .vInt 27015, secure := true, gametype := .vStr "versus",
         region := 0, ping_ms := 9999 }] 5, 0 ≤ r.ping_ms) :=
  ⟨C9_latency_values.2.2.1
    { addr := some (.vStr "1.2.3.4:27015"), name := some (.vStr "Valve Left4Dead 2 x"),
      players := some (.vInt 6), secure := some (.vBool true),
      gametype := some (.vStr "versus") }
    { name := "Valve Left4Dead 2 x", mapId := .vStr "", players := 6, max_players := 0,
      ip := "1.2.3.4", port := .vInt 27015, secure := true, gametype := .vStr "versus",
      region := 0, ping_ms := 9999 } (by decide),
   C9_latency_values.2.2.2 (fun _ => PingObservation.exc)
    [{ name := "Valve Left4Dead 2 x", mapId := .vStr "", players := 6, max_players := 0,
       ip := "1.2.3.4", port := .vInt 27015, secure := true, gametype := .vStr "versus",
       region := 0, ping_ms := 9999 }] 5 (by decide)⟩

/-- Helper: an ASCII digit is not whitespace and not a sign character. -/
theorem digit_char_facts {c : Char} (h : c.isDigit = true) :
    c.isWhitespace = false ∧ c ≠ '-' ∧ c ≠ '+' := by
  refine ⟨?_, ?_, ?_⟩
  · cases hw : c.isWhitespace
    · rfl
    · exfalso
      simp only [Char.isWhitespace, Bool.or_eq_true, decide_eq_true_eq] at hw
      rcases hw with ((rfl | rfl) | rfl) | rfl <;> revert h <;> decide
  · rintro rfl; revert h; decide
  · rintro rfl; revert h; decide

/-- Helper: `int()` succeeds on a nonempty all-digit string. -/
theorem strToInt_digits {z : String} (hne : z.toList ≠ [])
    (hall : ∀ c ∈ z.toList, c.isDigit = true) : ∃ n : Int, strToInt z = .ok n := by
  have hdw : ∀ (l : List Char), (∀ c ∈ l, c.isDigit = true) →
      l.dropWhile Char.isWhitespace = l := by
    intro l hl
    cases l with
    | nil => rfl
    | cons c cs =>
      rw [List.dropWhile_cons,
        if_neg (by simp [(digit_char_facts (hl c (List.mem_cons_self c cs))).1])]
  have htrim : trimChars z.toList = z.toList := by
    unfold trimChars
    rw [hdw _ hall, hdw _ (fun c hc => hall c (List.mem_reverse.mp hc)),
      List.reverse_reverse]
  simp only [strToInt, htrim]
  cases hz : z.toList with
  | nil => exact absurd hz hne
  | cons c cs =>
    have hc : c.isDigit = true := hall c (hz ▸ List.mem_cons_self c cs)
    have hcs : ∀ x ∈ c :: cs, x.isDigit = true := fun x hx => hall x (hz ▸ hx)
    have hsign : ((c :: cs).head? == some '-' || (c :: cs).head? == some '+') = false := by
      simp only [List.head?_cons, Bool.or_eq_false_iff]
      constructor <;> simp [(digit_char_facts hc).2.1, (digit_char_facts hc).2.2]
    have h1 := (digit_char_facts hc).2.1
    have h2 := (digit_char_facts hc).2.2
    have hallb : (c :: cs).all Char.isDigit = true := by
      rw [List.all_eq_true]; exact hcs
    refine ⟨(natOfDigits (c :: cs) : Int), ?_⟩
    simp [hsign, hallb, h1, h2]

/-- Helper: `splitOnChar` never returns the empty list of parts. -/
theorem splitOnChar_ne_nil (sep : Char) (l : List Char) : splitOnChar sep l ≠ [] := by
  cases l with
  | nil => simp [splitOnChar]
  | cons c rest =>
    simp only [splitOnChar]
    split
    · simp
    · split <;> simp

/-- Helper: a listing with a well-formed address always yields a
deduplication key without raising. -/
theorem dedupKey_wf {s : Listing} (h : wfAddr s.addr = true) :
    ∃ k, dedupKey s = .ok k := by
  unfold dedupKey
  cases ha : s.addr with
  | none =>
    exact ⟨_, rfl⟩
  | some v =>
    rw [ha] at h
    cases v with
    | vStr a =>
      simp only [wfAddr] at h
      simp only [pyGet, Option.getD]
      by_cases ht : truthy (PyVal.vStr a) = true
      · rw [if_pos ht]
        rcases hsp : splitOnChar ':' a.toList with _ | ⟨p1, rest1⟩
        · exact absurd hsp (splitOnChar_ne_nil ':' a.toList)
        · cases rest1 with
          | nil => exact ⟨_, rfl⟩
          | cons p2 rest2 =>
            cases rest2 with
            | nil => exact ⟨_, rfl⟩
            | cons p3 r3 =>
              rw [hsp] at h
              simp [List.length_cons] at h
      · rw [if_neg ht]
        exact ⟨_, rfl⟩
    | vNone => simp [wfAddr] at h
    | vBool b => simp [wfAddr] at h
    | vInt n => simp [wfAddr] at h

/-- Helper: the merge loop succeeds, with a sub-multiset output, whenever
every listing's key computation succeeds. -/
theorem dedupeAux_isOk (l : List Listing) :
    ∀ seen, (∀ s ∈ l, ∃ k, dedupKey s = .ok k) →
      ∃ out, dedupeAux l seen = .ok out ∧ ∀ t ∈ out, t ∈ l := by
  induction l with
  | nil => intro seen _; exact ⟨[], rfl, by simp⟩
  | cons s rest ih =>
    intro seen hall
    obtain ⟨k, hk⟩ := hall s (List.mem_cons_self s rest)
    have hrest : ∀ t ∈ rest, ∃ k, dedupKey t = .ok k :=
      fun t ht => hall t (List.mem_cons_of_mem s ht)
    unfold dedupeAux
    rw [hk]
    dsimp only
    by_cases hmem : k ∈ seen
    · rw [if_pos hmem]
      obtain ⟨out, hout, hsub⟩ := ih seen hrest
      exact ⟨out, hout, fun t ht => List.mem_cons_of_mem s (hsub t ht)⟩
    · rw [if_neg hmem]
      obtain ⟨out, hout, hsub⟩ := ih (k :: seen) hrest
      refine ⟨s :: out, ?_, ?_⟩
      · rw [hout]; rfl
      · intro t ht
        rcases List.mem_cons.mp ht with rfl | ht1
        · exact List.mem_cons_self t rest
        · exact List.mem_cons_of_mem s (hsub t ht1)

/-- Helper: a kept listing has a string in its raw name field (a falsy or
non-string name cannot pass the vendor-prefix clause without raising in
the filter first). -/
theorem keep_name_string {s : Listing} (hkeep : claimKeep s = true) :
    ∃ nm : String, pyGet s.name (.vStr "") = .vStr nm := by
  simp only [claimKeep, Bool.and_eq_true] at hkeep
  obtain ⟨⟨⟨hname, _⟩, _⟩, _⟩ := hkeep
  by_cases ht : truthy (pyGet s.name (.vStr "")) = true
  · have hv : nameVal s = pyGet s.name (.vStr "") := by
      simp only [nameVal, pyOr, if_pos ht]
    cases hx : pyGet s.name (.vStr "") with
    | vStr x => exact ⟨x, rfl⟩
    | vNone => rw [hv, hx] at hname; simp at hname
    | vBool b => rw [hv, hx] at hname; simp at hname
    | vInt n => rw [hv, hx] at hname; simp at hname
  · exfalso
    have hv : nameVal s = .vStr "" := by
      simp only [nameVal, pyOr, if_neg ht]
    rw [hv] at hname
    exact absurd hname (by decide)

/-- Helper: a well-formed listing that passes the filter builds a row
without raising. -/
theorem buildRow_wf {s : Listing} (hwf : wfListing s = true) (hkeep : claimKeep s = true) :
    ∃ row, buildRow s = .ok row := by
  simp only [wfListing, Bool.and_eq_true] at hwf
  obtain ⟨⟨⟨⟨haddr, hff⟩, hmp⟩, hreg⟩, hport⟩ := hwf
  obtain ⟨nm, hnm⟩ := keep_name_string hkeep
  simp only [wfFilterFields, Bool.and_eq_true] at hff
  obtain ⟨⟨_, _⟩, hpl⟩ := hff
  obtain ⟨a, ha, hlen⟩ : ∃ a : String, pyGet s.addr (.vStr "") = .vStr a ∧
      (splitOnChar ':' a.toList).length ≤ 2 := by
    cases hv : s.addr with
    | none => exact ⟨"", rfl, by decide⟩
    | some v =>
      rw [hv] at haddr
      cases v with
      | vStr x =>
        simp only [wfAddr, decide_eq_true_eq] at haddr
        exact ⟨x, rfl, haddr⟩
      | vNone => simp [wfAddr] at haddr
      | vBool b => simp [wfAddr] at haddr
      | vInt n => simp [wfAddr] at haddr
  obtain ⟨pn, hpn⟩ : ∃ n, playersVal s = .ok n := by
    cases hp : playersVal s with
    | ok n => exact ⟨n, rfl⟩
    | error e => rw [hp] at hpl; simp [Except.isOk, Except.toBool] at hpl
  obtain ⟨mn, hmn⟩ : ∃ n, pyToInt (pyOr (pyGet s.max_players (.vInt 0)) (.vInt 0)) = .ok n := by
    cases hp : pyToInt (pyOr (pyGet s.max_players (.vInt 0)) (.vInt 0)) with
    | ok n => exact ⟨n, rfl⟩
    | error e => rw [hp] at hmp; simp [Except.isOk, Except.toBool] at hmp
  obtain ⟨rn, hrn⟩ : ∃ n, pyToInt (pyOr (pyGet s.region (.vInt 0)) (.vInt 0)) = .ok n := by
    cases hp : pyToInt (pyOr (pyGet s.region (.vInt 0)) (.vInt 0)) with
    | ok n => exact ⟨n, rfl⟩
    | error e => rw [hp] at hreg; simp [Except.isOk, Except.toBool] at hreg
  have hportStep : ∀ ps : String, ∃ p, portVal s ps = .ok p := by
    intro ps
    unfold portVal
    cases hg : s.gameport with
    | none =>
      simp only [pyGet, Option.getD]
      by_cases hd : strIsDigit ps = true
      · obtain ⟨n, hn⟩ : ∃ n, strToInt ps = .ok n := by
          have hne : ps.toList ≠ [] := by
            intro hc
            rw [strIsDigit, hc] at hd
            simp at hd
          have hall : ∀ c ∈ ps.toList, c.isDigit = true := by
            simp only [strIsDigit, Bool.and_eq_true, List.all_eq_true] at hd
            exact hd.2
          exact strToInt_digits hne hall
        refine ⟨.vInt n, ?_⟩
        simp [pyToInt, hn, hd, Except.map]
      · have hc : (strIsDigit (pyToString (PyVal.vStr "")) || strIsDigit ps) =
            strIsDigit ps := by
          simp [pyToString, strIsDigit]
        rw [hc, if_neg hd]
        exact ⟨_, rfl⟩
    | some g =>
      rw [hg] at hport
      cases g with
      | vInt n =>
        simp only [pyGet, Option.getD]
        by_cases hd : (strIsDigit (pyToString (PyVal.vInt n)) || strIsDigit ps) = true
        · refine ⟨.vInt n, ?_⟩
          simp [hd, pyToInt, Except.map]
        · refine ⟨.vInt n, ?_⟩
          simp only [Bool.not_eq_true] at hd
          rw [if_neg (by simp [hd])]
      | vNone => simp [wfPortField] at hport
      | vBool b => simp [wfPortField] at hport
      | vStr x => simp [wfPortField] at hport
  suffices hok : (buildRow s).isOk = true by
    cases hb : buildRow s with
    | ok row => exact ⟨row, rfl⟩
    | error e => rw [hb] at hok; simp [Except.isOk, Except.toBool] at hok
  rcases hsp : splitOnChar ':' a.toList with _ | ⟨p1, _ | ⟨p2, _ | ⟨p3, r3⟩⟩⟩
  · exact absurd hsp (splitOnChar_ne_nil ':' a.toList)
  · obtain ⟨pv1, hpv1⟩ := hportStep (pyToString (pyGet s.gameport (.vStr "")))
    simp only [String.toList] at hsp
    simp [buildRow, ha, asStr, hsp, Bind.bind, Except.bind, hnm, hpn, hmn, hrn, hpv1,
      pure, Except.pure, Except.isOk, Except.toBool]
  · obtain ⟨pv2, hpv2⟩ := hportStep (String.mk p2)
    simp only [String.toList] at hsp
    simp [buildRow, ha, asStr, hsp, Bind.bind, Except.bind, hnm, hpn, hmn, hrn, hpv2,
      pure, Except.pure, Except.isOk, Except.toBool]
  · rw [hsp] at hlen
    simp [List.length_cons] at hlen

/-- Helper: row construction succeeds on a list of buildable listings. -/
theorem buildRows_wf (l : List Listing) (h : ∀ s ∈ l, ∃ row, buildRow s = .ok row) :
    ∃ rows, buildRows l = .ok rows := by
  induction l with
  | nil => exact ⟨[], rfl⟩
  | cons s rest ih =>
    obtain ⟨row, hrow⟩ := h s (List.mem_cons_self s rest)
    obtain ⟨rows, hrows⟩ := ih (fun t ht => h t (List.mem_cons_of_mem s ht))
    refine ⟨row :: rows, ?_⟩
    simp only [buildRows, hrow, hrows, Bind.bind, Except.bind]
    rfl

/-- C2 counterexample: a listing whose address field is a string with two
colons makes the deduplication loop raise `ValueError` at the two-variable
unpacking of `addr.split(":")`, and the error propagates out of
`generate_ranked_rows` — the core does surface an exception for malformed
raw contents. -/
theorem C2_counterexample :
    generate_ranked_rows [[{ addr := some (.vStr "a:b:c") }]] (fun _ => .exc) 1500 =
      .error "ValueError: too many values to unpack" := by decide

/-- C2 (amended): when every fetch path fails (each contributes an empty
batch) the pipeline returns the empty ranked list rather than an error;
and on well-formed raw listings (addresses that are strings with at most
one colon, string-or-missing name and tag fields, convertible counts, and
integer-or-missing explicit game port) `generate_ranked_rows` never
raises.  Contrary to the claim, malformed contents can raise, see the
counterexample. -/
theorem C2_pipeline_no_raise (pathResults : List (List Listing))
    (oracle : String → PingObservation) (sample : Int) :
    ((∀ batch ∈ pathResults, batch = []) →
      generate_ranked_rows pathResults oracle sample = .ok []) ∧
    ((∀ batch ∈ pathResults, ∀ s ∈ batch, wfListing s = true) →
      ∃ rows, generate_ranked_rows pathResults oracle sample = .ok rows) := by
  constructor
  · intro hall
    have hfl : pathResults.flatten = [] := List.flatten_eq_nil_iff.mpr hall
    simp [generate_ranked_rows, fetch_servers_multi, hfl, dedupe, dedupeAux,
      filter_servers, buildRows, parallel_icmp, sortRows, List.insertionSort,
      Bind.bind, Except.bind, pure, Except.pure]
  · intro hwf
    have hwfall : ∀ s ∈ pathResults.flatten, wfListing s = true := by
      intro s hs
      obtain ⟨b, hb, hsb⟩ := List.mem_flatten.mp hs
      exact hwf b hb s hsb
    have hkeys : ∀ s ∈ pathResults.flatten, ∃ k, dedupKey s = .ok k := by
      intro s hs
      have h := hwfall s hs
      simp only [wfListing, Bool.and_eq_true] at h
      exact dedupKey_wf h.1.1.1.1
    obtain ⟨raw, hraw, hsub⟩ := dedupeAux_isOk pathResults.flatten [] hkeys
    have hwfraw : ∀ s ∈ raw, wfListing s = true := fun s hs => hwfall s (hsub s hs)
    have hfil : filter_servers raw = .ok (raw.filter claimKeep) := by
      apply filter_servers_wf
      intro s hs
      have h := hwfraw s hs
      simp only [wfListing, Bool.and_eq_true] at h
      exact h.1.1.1.2
    obtain ⟨rows, hrows⟩ : ∃ rows, buildRows (raw.filter claimKeep) = .ok rows := by
      apply buildRows_wf
      intro s hs
      have hmem := List.mem_filter.mp hs
      exact buildRow_wf (hwfraw s hmem.1) hmem.2
    refine ⟨sortRows ((parallel_icmp oracle rows sample).map scoreRow), ?_⟩
    simp [generate_ranked_rows, fetch_servers_multi, dedupe, hraw, hfil, hrows,
      Bind.bind, Except.bind, pure, Except.pure]

/-- Witness for C2: with every path failed the result is the empty list;
with one well-formed listing the pipeline returns rows without raising. -/
theorem C2_witness :
    generate_ranked_rows [[], [], []] (fun _ => PingObservation.exc) 1500 = .ok [] ∧
    ∃ rows, generate_ranked_rows
      [[{ addr := some (.vStr "1.2.3.4:27015"), name := some (.vStr "Valve Left4Dead 2 x"),
          players := some (.vInt 6), secure := some (.vBool true),
          gametype := some (.vStr "versus") }]]
      (fun _ => PingObservation.exc) 1500 = .ok rows :=
  ⟨(C2_pipeline_no_raise [[], [], []] (fun _ => PingObservation.exc) 1500).1 (by decide),
   (C2_pipeline_no_raise
      [[{ addr := some (.vStr "1.2.3.4:27015"), name := some (.vStr "Valve Left4Dead 2 x"),
          players := some (.vInt 6), secure := some (.vBool true),
          gametype := some (.vStr "versus") }]]
      (fun _ => PingObservation.exc) 1500).2 (by decide)⟩
